import Mathlib

/-!
Verification development for the beau LLM-client library.

This file gives a shallow embedding, in Lean, of the core data model and
operations of the library (transport retry loop, streaming reassembly,
conversation log, tool-kit dispatch, the fsMage orchestration loop and the
path validator), translated from the Go source, and proves properties of
the embedded definitions.

Modelling conventions:
- Go time.Duration values are Int (nanoseconds).
- Go stdlib collaborators (time.ParseDuration, http.ParseTime, json
  decoding, the filesystem behind filepath.EvalSymlinks and os.Stat, and
  the pure path-string helpers of path/filepath) are passed in as
  function parameters ("oracles"); the logic of the repository itself is
  transcribed concretely.
- The float64 backoff multiplication (delay * BackoffFactor) is
  abstracted as an Int-to-Int parameter nextDelay, since no claim depends
  on float arithmetic.
- Contexts are modelled by explicit cancellation flags where a claim
  needs them, and as never-cancelled otherwise.
- Logging calls are no-ops and are dropped.
-/

namespace Beau

/-- Role of a message in a conversation (types.go MessageRole). -/
inductive MessageRole where
  | system
  | user
  | assistant
  | tool
deriving Repr, DecidableEq

/-- Function descriptor inside a tool call (types.go ToolFunction). -/
structure ToolFunction where
  Name : String
  Arguments : String
deriving Repr, DecidableEq

/-- Tool call emitted by the model (types.go ToolCall). Go field Type is
spelled Type' because Type is a Lean keyword. -/
structure ToolCall where
  ID : String
  Type' : String
  Function : ToolFunction
deriving Repr, DecidableEq

/-- Single piece of complex message content (types.go ContentItem),
reduced to the fields the claims touch. -/
structure ContentItem where
  Type' : String
  Text : String
deriving Repr, DecidableEq

/-- Go declares Message.Content as interface left open; at runtime it is
either a plain string or a list of content items (types.go). -/
inductive MessageContent where
  | str (s : String)
  | items (xs : List ContentItem)
deriving Repr, DecidableEq

/-- Message in a conversation (types.go Message). -/
structure Message where
  Role : MessageRole
  Content : MessageContent
  Name : String := ""
  ToolCalls : List ToolCall := []
  ToolCallID : String := ""
deriving Repr, DecidableEq

/-- Completion choice (types.go Choice). -/
structure Choice where
  Msg : Message
  FinishReason : String := ""
deriving Repr, DecidableEq

/-- Response from the chat-completions API (types.go
ChatCompletionResponse), reduced to the field the claims touch. -/
structure ChatCompletionResponse where
  Choices : List Choice
deriving Repr, DecidableEq

/-- Allowed directory root for file operations (types.go
ProjectBounds). -/
structure ProjectBounds where
  Name : String
  Description : String
  ABSPath : String
deriving Repr, DecidableEq

/-- Retry behaviour configuration (types.go RetryConfig). BackoffFactor
is abstracted out of the structure: see nextDelay parameters below. -/
structure RetryConfig where
  MaxRetries : Int
  InitialDelay : Int
  MaxDelay : Int
  Enabled : Bool
deriving Repr, DecidableEq

/-- One second, in nanoseconds, matching Go time.Second. -/
def Second : Int := 1000000000

/-- Default wait for a rate-limited response with no usable Retry-After
header (defaults source file: DefaultRateLimitDuration = 30s). -/
def DefaultRateLimitDuration : Int := 30 * Second

/-! ## Transport retry loop (doRequestWithRetry, parseRetryAfter) -/

/-- Outcome of one HTTP attempt as seen by doRequestWithRetry: either a
transport-level error from HTTPClient.Do, or a response with a status
code, the value of the Retry-After header ("" when absent, matching
Go Header.Get), and a body. -/
inductive AttemptOutcome where
  | transportError (e : String)
  | response (statusCode : Int) (retryAfterHeader : String) (body : String)
deriving Repr, DecidableEq

/-- HTTP response value returned by the retry loop. -/
structure GoResponse where
  StatusCode : Int
  retryAfterHeader : String
  body : String
deriving Repr, DecidableEq

/-- Value of the lastErr variable in doRequestWithRetry. -/
inductive LastErr where
  | noErr
  | transport (e : String)
  | rateLimit (statusCode : Int) (retryAfter : Int) (body : String)
deriving Repr, DecidableEq

/-- Error results of doRequestWithRetry: either the raw last transport
error (the `return nil, err` at the end of the error branch), or the
wrapped max-retries-exceeded error built after the loop. -/
inductive ReqError where
  | transportErr (e : String)
  | maxRetriesExceeded (last : LastErr)
deriving Repr, DecidableEq

/-- Result of running doRequestWithRetry: the returned value, the number
of HTTP attempts issued, and the sequence of sleeps performed (in
chronological order). -/
structure ReqOutcome where
  result : Except ReqError GoResponse
  attemptsMade : Nat
  waits : List Int

/-- Embeds parseRetryAfter. pd models time.ParseDuration (note the
source appends "s" to the header before parsing, so a bare number parses
as seconds); pt models the composite of http.ParseTime and time.Until,
returning the duration until the parsed date. Both are Go stdlib
collaborators and are passed as oracles. -/
def parseRetryAfter (pd : String → Option Int) (pt : String → Option Int)
    (retryAfterHeader : String) : Int :=
  match pd (retryAfterHeader ++ "s") with
  | some seconds => seconds
  | none =>
    match pt retryAfterHeader with
    | some untilT => untilT
    | none => DefaultRateLimitDuration

/-- Wait computed by the HTTP-429 branch of doRequestWithRetry before
sleeping: start from the current backoff delay, override with the parsed
Retry-After header when the header is nonempty and larger, then cap at
MaxDelay. This is the exact sequence of the source lines. -/
def rateLimit429Wait (cfg : RetryConfig) (parseRA : String → Int)
    (delay : Int) (hdr : String) : Int :=
  let retryAfter := if hdr = "" then delay else parseRA hdr
  let d := if retryAfter > delay then retryAfter else delay
  if d > cfg.MaxDelay then cfg.MaxDelay else d

/-- Body of the for-loop of doRequestWithRetry. fuel counts the loop
iterations still allowed by the loop condition attempt <= MaxRetries
(doRequestWithRetry below supplies (MaxRetries+1).toNat); attempt is the
Go loop variable. respond gives the outcome of each attempt. nextDelay
abstracts the float64 backoff multiplication. waits accumulates sleeps
in reverse. -/
def retryLoop (cfg : RetryConfig) (nextDelay : Int → Int)
    (pd pt : String → Option Int) (respond : Nat → AttemptOutcome) :
    Nat → Nat → Int → LastErr → List Int → ReqOutcome
  | attempt, 0, _delay, lastErr, waits =>
    ⟨Except.error (ReqError.maxRetriesExceeded lastErr), attempt, waits.reverse⟩
  | attempt, fuel + 1, delay, _lastErr, waits =>
    match respond attempt with
    | AttemptOutcome.transportError e =>
      if (attempt : Int) < cfg.MaxRetries then
        let d := nextDelay delay
        let d := if d > cfg.MaxDelay then cfg.MaxDelay else d
        retryLoop cfg nextDelay pd pt respond (attempt + 1) fuel d
          (LastErr.transport e) (delay :: waits)
      else
        ⟨Except.error (ReqError.transportErr e), attempt + 1, waits.reverse⟩
    | AttemptOutcome.response status hdr body =>
      if status = 429 ∧ cfg.Enabled = true ∧ (attempt : Int) < cfg.MaxRetries then
        let wait := rateLimit429Wait cfg (parseRetryAfter pd pt) delay hdr
        retryLoop cfg nextDelay pd pt respond (attempt + 1) fuel (nextDelay wait)
          (LastErr.rateLimit status wait body) (wait :: waits)
      else
        ⟨Except.ok ⟨status, hdr, body⟩, attempt + 1, waits.reverse⟩

/-- Embeds doRequestWithRetry: runs the loop from attempt 0 with the
initial delay; the loop condition attempt <= MaxRetries allows exactly
(MaxRetries+1).toNat iterations. Cancellation is modelled as never
firing (the context select arms are the only place it is observed). -/
def doRequestWithRetry (cfg : RetryConfig) (nextDelay : Int → Int)
    (pd pt : String → Option Int) (respond : Nat → AttemptOutcome) : ReqOutcome :=
  retryLoop cfg nextDelay pd pt respond 0 (cfg.MaxRetries + 1).toNat
    cfg.InitialDelay LastErr.noErr []

/-! ## Go string helpers

Models of the Go strings-package functions the sources call, written
over the character list of a String (Go indexes bytes; on the inputs
involved the byte and character views agree). -/

/-- Models strings.HasPrefix. -/
def goHasPrefix (s pre : String) : Bool := pre.data.isPrefixOf s.data

/-- Models strings.TrimPrefix. -/
def goTrimPrefix (s pre : String) : String :=
  if goHasPrefix s pre then ⟨s.data.drop pre.data.length⟩ else s

/-- Models strings.HasSuffix. -/
def goHasSuffix (s suf : String) : Bool := suf.data.isSuffixOf s.data

/-- Models strings.TrimSuffix. -/
def goTrimSuffix (s suf : String) : String :=
  if goHasSuffix s suf then ⟨s.data.take (s.data.length - suf.data.length)⟩ else s

/-! ## Streaming path (handleStreamingResponse) -/

/-- Errors delivered on the stream or returned by the streaming path. -/
inductive StreamErr where
  | reqError (e : ReqError)
  | unexpectedStatus (code : Int) (body : String)
  | ctxCancelled
  | readStream (e : String)
deriving Repr, DecidableEq

/-- Chunk sent on the sink channel (types.go StreamChunk). -/
structure StreamChunk where
  Content : String := ""
  Error : Option StreamErr := none
  Done : Bool := false
deriving Repr, DecidableEq

/-- Delta of one streamed choice, as decoded from a data line by the
anonymous chunk struct inside handleStreamingResponse. -/
structure DeltaChoice where
  Content : String
  ToolCalls : List ToolCall
deriving Repr, DecidableEq

/-- Trace of one run of the streaming path: the chunks sent on the sink
channel in order, the number of times close(stream) executed, and the
returned value. -/
structure StreamRun where
  chunks : List StreamChunk
  closes : Nat
  result : Except StreamErr ChatCompletionResponse

/-- HTTP response handed to the streaming reader: status code, the body
as the sequence of lines the scanner delivers, the scanner error (if the
line loop ends because of an I/O error), and the raw body used in the
non-200 error message. -/
structure StreamHTTPResponse where
  StatusCode : Int
  bodyLines : List String
  scanErr : Option String
  rawBody : String

/-- Applies a continuation fragment to the most recently started tool
call, exactly as the lastIdx update in handleStreamingResponse: a
nonempty fragment name overwrites the name, a nonempty argument fragment
is string-appended to the accumulated arguments. -/
def applyToolCallFragment (tc last : ToolCall) : ToolCall :=
  { last with Function :=
      { Name := if tc.Function.Name ≠ "" then tc.Function.Name
                else last.Function.Name,
        Arguments := if tc.Function.Arguments ≠ "" then
                       last.Function.Arguments ++ tc.Function.Arguments
                     else last.Function.Arguments } }

/-- Rewrites the element at index lastIdx = length - 1 (the in-place
slice update of the Go code). -/
def updateLastToolCall (tc : ToolCall) : List ToolCall → List ToolCall
  | [] => []
  | x :: rest =>
    if rest.isEmpty then [applyToolCallFragment tc x]
    else x :: updateLastToolCall tc rest

/-- Merges one streamed tool-call fragment into the accumulated list
(the body of the per-fragment loop in handleStreamingResponse): a
fragment with a nonempty ID starts a new tool call; otherwise, when at
least one tool call was started, the fragment updates the most recent
one; otherwise it is dropped. -/
def mergeDeltaToolCall (acc : List ToolCall) (tc : ToolCall) : List ToolCall :=
  if tc.ID ≠ "" then acc ++ [tc]
  else if acc.length > 0 then updateLastToolCall tc acc
  else acc

/-- Folds a whole delta fragment list into the accumulator (the
for-range over delta.ToolCalls). -/
def mergeDeltaToolCalls (acc : List ToolCall) (tcs : List ToolCall) : List ToolCall :=
  tcs.foldl mergeDeltaToolCall acc

/-- Strips the SSE prefix from a line (strings.TrimPrefix with
"data: "). -/
def stripDataPrefix (line : String) : String :=
  goTrimPrefix line "data: "

/-- Final response synthesized from accumulated content and tool calls
when the stream ends. -/
def synthesizeResponse (fullMessage : String) (toolCalls : List ToolCall) :
    ChatCompletionResponse :=
  ⟨[{ Msg := { Role := MessageRole.assistant,
               Content := MessageContent.str fullMessage,
               ToolCalls := toolCalls } }]⟩

/-- Line loop of handleStreamingResponse. parse models json.Unmarshal of
a data line into the chunk struct (none = parse failure, which the code
logs and skips), returning the Delta of every choice; the code uses
choices head only. cancelled models the per-iteration ctx.Done select
(index = how many lines have been scanned so far). scanErr models
scanner.Err() once the lines are exhausted. -/
def runStreamLines (parse : String → Option (List DeltaChoice))
    (cancelled : Nat → Bool) (scanErr : Option String) :
    List String → Nat → String → List ToolCall → List StreamChunk → StreamRun
  | [], _idx, fullMessage, toolCalls, chunks =>
    match scanErr with
    | some e =>
      ⟨chunks ++ [{ Error := some (StreamErr.readStream e) }], 1,
       Except.error (StreamErr.readStream e)⟩
    | none => ⟨chunks, 0, Except.ok (synthesizeResponse fullMessage toolCalls)⟩
  | line :: rest, idx, fullMessage, toolCalls, chunks =>
    if cancelled idx then
      ⟨chunks ++ [{ Error := some StreamErr.ctxCancelled }], 1,
       Except.error StreamErr.ctxCancelled⟩
    else if line = "" then
      runStreamLines parse cancelled scanErr rest (idx + 1) fullMessage toolCalls chunks
    else
      let line2 := stripDataPrefix line
      if line2 = "[DONE]" then
        ⟨chunks ++ [{ Done := true }], 1,
         Except.ok (synthesizeResponse fullMessage toolCalls)⟩
      else
        match parse line2 with
        | none =>
          runStreamLines parse cancelled scanErr rest (idx + 1) fullMessage toolCalls chunks
        | some [] =>
          runStreamLines parse cancelled scanErr rest (idx + 1) fullMessage toolCalls chunks
        | some (delta :: _) =>
          let fullMessage2 :=
            if delta.Content ≠ "" then fullMessage ++ delta.Content else fullMessage
          let chunks2 :=
            if delta.Content ≠ "" then chunks ++ [{ Content := delta.Content }] else chunks
          runStreamLines parse cancelled scanErr rest (idx + 1) fullMessage2
            (mergeDeltaToolCalls toolCalls delta.ToolCalls) chunks2

/-- Embeds handleStreamingResponse. req is the outcome of the retried
request (doRequestWithRetry is modelled separately); on request failure
or a non-200 status an error chunk is sent and the channel closed,
otherwise the body lines are consumed by runStreamLines. -/
def handleStreamingResponse (parse : String → Option (List DeltaChoice))
    (cancelled : Nat → Bool) (req : Except ReqError StreamHTTPResponse) : StreamRun :=
  match req with
  | Except.error e =>
    ⟨[{ Error := some (StreamErr.reqError e) }], 1, Except.error (StreamErr.reqError e)⟩
  | Except.ok resp =>
    if resp.StatusCode ≠ 200 then
      ⟨[{ Error := some (StreamErr.unexpectedStatus resp.StatusCode resp.rawBody) }], 1,
       Except.error (StreamErr.unexpectedStatus resp.StatusCode resp.rawBody)⟩
    else
      runStreamLines parse cancelled resp.scanErr resp.bodyLines 0 "" [] []

/-- Tests whether an Except value is a success. -/
def isOkE : Except ε α → Bool
  | Except.ok _ => true
  | Except.error _ => false

/-- Tests whether a stream run ended as a silent success: the body was
exhausted without a [DONE] sentinel and without a scanner error (the
result is a success and no done-marker chunk was sent). -/
def silentEOF (r : StreamRun) : Bool :=
  isOkE r.result && !(r.chunks.any (·.Done))

/-! ## Conversation (Conversation.Send) -/

/-- Errors surfaced by Conversation.Send: an error propagated from
client.Send (kept as text), or the zero-choices protocol error. -/
inductive SendErr where
  | clientErr (e : String)
  | noResponseChoices
deriving Repr, DecidableEq

/-- Embeds Conversation.Send, with the outcome of the underlying
client.Send call passed in. Returns the call result together with the
message log after the call (the Go method mutates c.messages only on the
success path, after extracting choice zero). The truncation check is a
log statement and is dropped. -/
def conversationSend (msgs : List Message)
    (clientResult : Except String ChatCompletionResponse) :
    Except SendErr Message × List Message :=
  match clientResult with
  | Except.error e => (Except.error (SendErr.clientErr e), msgs)
  | Except.ok resp =>
    match resp.Choices with
    | [] => (Except.error SendErr.noResponseChoices, msgs)
    | c :: _ => (Except.ok c.Msg, msgs ++ [c.Msg])

/-! ## Tool kit dispatch (LlmToolKit.HandleResponseCalls) -/

/-- Registered tool, reduced to its declared name and its executor
(shellkit LlmTool: GetDefinition().Function.Name and Call). Executor
results (Go interface values) are modelled as strings, matching the
stringification the mage callbacks apply. -/
structure LlmTool where
  name : String
  call : String → Except String String

/-- Processes one tool call of a batch (the body of the for-range in
HandleResponseCalls): linear scan of the registry stopping at the first
name match, executor invocation, and exactly one callback invocation per
tool call, with the callback modelled as a state transformer taking
(isError, id, result-or-error-text). -/
def handleToolCall {σ : Type} (tools : List LlmTool)
    (cb : σ → Bool → String → String → σ) (s : σ) (tc : ToolCall) : σ :=
  match tools.find? (fun t => t.name == tc.Function.Name) with
  | some t =>
    match t.call tc.Function.Arguments with
    | Except.ok r => cb s false tc.ID r
    | Except.error e => cb s true tc.ID e
  | none => cb s true tc.ID ("Tool " ++ tc.Function.Name ++ " not found in toolkit")

/-- Embeds LlmToolKit.HandleResponseCalls: fails immediately when no
callback was registered, otherwise folds every tool call of the
response, in order, through handleToolCall and returns nil. -/
def handleResponseCalls {σ : Type} (callback : Option (σ → Bool → String → String → σ))
    (tools : List LlmTool) (s : σ) (response : Message) : Except String σ :=
  match callback with
  | none => Except.error "no callback set"
  | some cb => Except.ok (response.ToolCalls.foldl (handleToolCall tools cb) s)

/-- Modelled from the spec: the callback invocation HandleResponseCalls
is specified to make for one tool call, as a record (isError, id,
payload) — a match runs the executor and reports (false, id, result) or
(true, id, error); no match reports (true, id, tool-not-found text). Used
to state that the source dispatch emits exactly these events in order. -/
def specToolCallEvent (tools : List LlmTool) (tc : ToolCall) : Bool × String × String :=
  match tools.find? (fun t => t.name == tc.Function.Name) with
  | some t =>
    match t.call tc.Function.Arguments with
    | Except.ok r => (false, tc.ID, r)
    | Except.error e => (true, tc.ID, e)
  | none => (true, tc.ID, "Tool " ++ tc.Function.Name ++ " not found in toolkit")

/-! ## fsMage orchestration loop (fs_mage.go) -/

/-- Mutable state of an fsMage: the conversation message log, the
accumulated result builder and the added context messages. -/
structure FsMageState where
  conversation : List Message
  resultBuilder : String
  contextMessages : List String
deriving Repr, DecidableEq

/-- Message appended by Conversation.AddToolResult. -/
def toolResultMessage (toolCallID : String) (result : String) : Message :=
  { Role := MessageRole.tool, Content := MessageContent.str result,
    ToolCallID := toolCallID }

/-- Message appended by Conversation.AddSystemMessage. -/
def systemMessage (content : String) : Message :=
  { Role := MessageRole.system, Content := MessageContent.str content }

/-- Message appended by Conversation.AddUserMessage. -/
def userMessage (content : String) : Message :=
  { Role := MessageRole.user, Content := MessageContent.str content }

/-- Embeds the kit callback registered by fsMage (the closure passed to
GetValidatedFsKit): errors are only logged; successes append a tool
result to the conversation and write the stringified result into the
result builder. -/
def fsToolCallback (s : FsMageState) (isError : Bool) (id : String)
    (result : String) : FsMageState :=
  if isError then s
  else { s with
         conversation := s.conversation ++ [toolResultMessage id result],
         resultBuilder := s.resultBuilder ++ result }

/-- One tool-dispatch round of the fsMage loop: the call
m.kit.HandleResponseCalls(response), whose returned error the mage
ignores; the fskit always has the callback installed. -/
def fsDispatchRound (tools : List LlmTool) (s : FsMageState)
    (response : Message) : FsMageState :=
  match handleResponseCalls (some fsToolCallback) tools s response with
  | Except.ok s2 => s2
  | Except.error _ => s

/-- Errors returned by the embedded Execute. scriptExhausted marks the
model artifact of running out of scripted Send outcomes while the Go
loop would have issued another request. -/
inductive ExecErr where
  | sendFailed (e : SendErr)
  | contentNotString
  | scriptExhausted
deriving Repr, DecidableEq

/-- Result of one Execute run: the returned value (Go returns the empty
string together with the error on failure), the mage state afterwards,
and the number of tool-dispatch rounds performed. -/
structure ExecResult where
  value : Except ExecErr String
  state : FsMageState
  dispatchRounds : Nat
deriving Repr

/-- Embeds the for-loop of fsMage.Execute: send, and either finish on a
plain-string response with no tool calls (appending it to the result
builder and returning the full builder contents), fail on structured
content, or dispatch the tool calls and loop. Successive outcomes of
the underlying client.Send are scripted by the list argument; the
context is modelled as never cancelled. -/
def fsExecuteLoop (tools : List LlmTool) :
    List (Except String ChatCompletionResponse) → FsMageState → Nat → ExecResult
  | [], s, rounds => ⟨Except.error ExecErr.scriptExhausted, s, rounds⟩
  | r :: rest, s, rounds =>
    match conversationSend s.conversation r with
    | (Except.error e, msgs2) =>
      ⟨Except.error (ExecErr.sendFailed e), { s with conversation := msgs2 }, rounds⟩
    | (Except.ok m, msgs2) =>
      let s2 : FsMageState := { s with conversation := msgs2 }
      if m.ToolCalls.isEmpty then
        match m.Content with
        | MessageContent.str str =>
          ⟨Except.ok (s2.resultBuilder ++ str),
           { s2 with resultBuilder := s2.resultBuilder ++ str }, rounds⟩
        | MessageContent.items _ =>
          ⟨Except.error ExecErr.contentNotString, s2, rounds⟩
      else
        fsExecuteLoop tools rest (fsDispatchRound tools s2 m) (rounds + 1)

/-- System message the Execute prelude builds from the project bounds. -/
def projectBoundsInfo (pbs : List ProjectBounds) : String :=
  "You have access to the following project directories:\n" ++
    String.join (pbs.map (fun pb =>
      "- " ++ pb.Name ++ ": " ++ pb.Description ++
      " (use absolute path: " ++ pb.ABSPath ++ ")\n")) ++
    "\nAlways use the full absolute paths when working with files." ++
    " Do not use generic paths like /home/user/project."

/-- Prelude of fsMage.Execute: appends the project-bounds system
message (when bounds exist), the accumulated context messages and the
user command to the conversation. -/
def fsExecutePrelude (projectBounds : List ProjectBounds)
    (s : FsMageState) (command : String) : FsMageState :=
  let s1 : FsMageState :=
    if projectBounds.isEmpty then s
    else { s with conversation :=
             s.conversation ++ [systemMessage (projectBoundsInfo projectBounds)] }
  let s2 : FsMageState :=
    { s1 with conversation := s1.conversation ++ s1.contextMessages.map systemMessage }
  { s2 with conversation := s2.conversation ++ [userMessage command] }

/-- Embeds fsMage.Execute: the prelude appends, then the send/dispatch
loop. -/
def fsExecute (tools : List LlmTool) (projectBounds : List ProjectBounds)
    (s : FsMageState) (command : String)
    (script : List (Except String ChatCompletionResponse)) : ExecResult :=
  fsExecuteLoop tools script (fsExecutePrelude projectBounds s command) 0

/-- Embeds fsMage.resetConversationInternals: resets the result builder
and the context messages and replaces the conversation with a fresh
empty one. -/
def resetConversationInternals (_s : FsMageState) : FsMageState :=
  { conversation := [], resultBuilder := "", contextMessages := [] }

/-! ## Path validator (pathutil.ValidatePath) -/

/-- Oracles for the Go stdlib collaborators ValidatePath consults: the
filesystem behind filepath.EvalSymlinks and os.Stat, and the pure
path-string helpers of path/filepath (none results model the error
returns). The validator is modelled on a Unix separator. -/
structure FSOracle where
  abs : String → Option String
  evalSymlinks : String → Option String
  statExists : String → Bool
  dir : String → String
  base : String → String
  join : String → String → String
  rel : String → String → String

/-- Walk-up loop of ValidatePath used when neither the candidate nor its
parent resolves: climb existing parents until one both stats and
resolves, and rebase the candidate under the resolved parent. The Go
loop walks filepath.Dir until "/" or "."; recursion here is fuelled by
the candidate length, which bounds the walk for the real Dir; exhausted
fuel behaves like reaching the walk end without a hit, leaving the
resolved path empty. -/
def walkUpResolve (fs : FSOracle) (absPath : String) : Nat → String → String
  | 0, _ => ""
  | fuel + 1, existingParent =>
    if existingParent ≠ "/" ∧ existingParent ≠ "." then
      match (if fs.statExists existingParent
             then fs.evalSymlinks existingParent else none) with
      | some resolved => fs.join resolved (fs.rel existingParent absPath)
      | none => walkUpResolve fs absPath fuel (fs.dir existingParent)
    else ""

/-- Symlink resolution of the candidate inside ValidatePath: resolve the
path itself; if that fails (file not created yet), resolve the parent
and rebase; if the parent also fails, walk up to the nearest existing
resolvable ancestor; an empty outcome falls back to the unresolved
absolute path. -/
def resolveCandidate (fs : FSOracle) (absPath : String) : String :=
  match fs.evalSymlinks absPath with
  | some r => r
  | none =>
    let parentDir := fs.dir absPath
    match fs.evalSymlinks parentDir with
    | some resolvedParent => fs.join resolvedParent (fs.base absPath)
    | none =>
      let r := walkUpResolve fs absPath (absPath.length + 1) parentDir
      if r = "" then absPath else r

/-- Removes one trailing separator (strings.TrimSuffix with "/"). -/
def trimSlashSuffix (s : String) : String :=
  goTrimSuffix s "/"

/-- Per-project loop of ValidatePath: for each allowed root, take its
absolute form (skipping roots filepath.Abs rejects), fail outright when
the root does not resolve, and accept the candidate when its resolved
form lies under (or equals) the resolved root; on no match, fall through
to the not-within error. -/
def checkProjects (fs : FSOracle) (absPath : String) :
    List ProjectBounds → Except String String
  | [] => Except.error ("path is not within allowed directories: " ++ absPath)
  | p :: rest =>
    match fs.abs p.ABSPath with
    | none => checkProjects fs absPath rest
    | some projAbsPath =>
      let resolvedAbsPath := resolveCandidate fs absPath
      match fs.evalSymlinks projAbsPath with
      | none => Except.error ("could not resolve project path: " ++ p.ABSPath)
      | some rp =>
        let resolvedProjPath := if goHasSuffix rp "/" then rp else rp ++ "/"
        if goHasPrefix resolvedAbsPath resolvedProjPath ∨
            resolvedAbsPath = trimSlashSuffix resolvedProjPath then
          Except.ok absPath
        else
          checkProjects fs absPath rest

/-- Embeds pathutil.ValidatePath: an empty candidate becomes "."; paths
starting with "./" or "../", paths starting with "~/", and other
non-absolute paths apart from "." are rejected with descriptive errors;
the surviving candidate is made absolute, accepted unconditionally when
no project bounds are configured, and otherwise checked against each
allowed root. -/
def ValidatePath (fs : FSOracle) (projects : List ProjectBounds)
    (path : String) : Except String String :=
  let path := if path = "" then "." else path
  if goHasPrefix path "./" || goHasPrefix path "../" then
    Except.error ("relative paths are not allowed: " ++ path)
  else if goHasPrefix path "~/" then
    Except.error ("tilde expansion is not supported: " ++ path)
  else if !goHasPrefix path "/" && path ≠ "." then
    Except.error ("path must be absolute: " ++ path)
  else
    match fs.abs path with
    | none => Except.error ("could not get absolute path for: " ++ path)
    | some absPath =>
      if projects.isEmpty then Except.ok absPath
      else checkProjects fs absPath projects

/-- States that the symlink-resolved candidate lies under (or equals)
the symlink-resolved form of one allowed root — the acceptance condition
of the per-project loop of ValidatePath. -/
def insideResolvedRoot (fs : FSOracle) (absPath : String) (p : ProjectBounds) : Prop :=
  ∃ projAbsPath rp, fs.abs p.ABSPath = some projAbsPath ∧
    fs.evalSymlinks projAbsPath = some rp ∧
    (goHasPrefix (resolveCandidate fs absPath)
        (if goHasSuffix rp "/" then rp else rp ++ "/") = true ∨
     resolveCandidate fs absPath
        = trimSlashSuffix (if goHasSuffix rp "/" then rp else rp ++ "/"))

/-- States that a string extends another on the right. -/
def growsFrom (b a : String) : Prop := ∃ t, b = a ++ t

/-- States that an Execute outcome returned, without error, the given
base buffer extended by some accumulated tool output and then the given
final tail. -/
def returnsWithSuffix (out : ExecResult) (base tail : String) : Prop :=
  ∃ mid, out.value = Except.ok (base ++ mid ++ tail)

/-! ## Helper lemmas: retry loop -/

/-- Unfolding equation of the retry loop at exhausted fuel. -/
theorem retryLoop_zero (cfg : RetryConfig) (nextDelay : Int → Int)
    (pd pt : String → Option Int) (respond : Nat → AttemptOutcome)
    (attempt : Nat) (delay : Int) (lastErr : LastErr) (waits : List Int) :
    retryLoop cfg nextDelay pd pt respond attempt 0 delay lastErr waits =
      ⟨Except.error (ReqError.maxRetriesExceeded lastErr), attempt, waits.reverse⟩ := rfl

/-- Unfolding equation of the retry loop for one available iteration. -/
theorem retryLoop_succ (cfg : RetryConfig) (nextDelay : Int → Int)
    (pd pt : String → Option Int) (respond : Nat → AttemptOutcome)
    (attempt fuel : Nat) (delay : Int) (lastErr : LastErr) (waits : List Int) :
    retryLoop cfg nextDelay pd pt respond attempt (fuel + 1) delay lastErr waits =
      match respond attempt with
      | AttemptOutcome.transportError e =>
        if (attempt : Int) < cfg.MaxRetries then
          retryLoop cfg nextDelay pd pt respond (attempt + 1) fuel
            (if nextDelay delay > cfg.MaxDelay then cfg.MaxDelay else nextDelay delay)
            (LastErr.transport e) (delay :: waits)
        else
          ⟨Except.error (ReqError.transportErr e), attempt + 1, waits.reverse⟩
      | AttemptOutcome.response status hdr body =>
        if status = 429 ∧ cfg.Enabled = true ∧ (attempt : Int) < cfg.MaxRetries then
          retryLoop cfg nextDelay pd pt respond (attempt + 1) fuel
            (nextDelay (rateLimit429Wait cfg (parseRetryAfter pd pt) delay hdr))
            (LastErr.rateLimit status
              (rateLimit429Wait cfg (parseRetryAfter pd pt) delay hdr) body)
            (rateLimit429Wait cfg (parseRetryAfter pd pt) delay hdr :: waits)
        else
          ⟨Except.ok ⟨status, hdr, body⟩, attempt + 1, waits.reverse⟩ := rfl

/-- Running the retry loop against a transport that fails every attempt:
with fuel f+1 matching the remaining loop iterations, the loop performs
the remaining f+1 attempts, sleeps f times, and returns the raw error of
the last attempt (the `return nil, err` branch fires on the final
attempt, so the max-retries wrap after the loop is never built). -/
theorem retryLoop_allFail (cfg : RetryConfig) (nextDelay : Int → Int)
    (pd pt : String → Option Int) (errs : Nat → String)
    (respond : Nat → AttemptOutcome)
    (hresp : ∀ i, respond i = AttemptOutcome.transportError (errs i)) :
    ∀ (f attempt : Nat) (delay : Int) (lastErr : LastErr) (waits : List Int),
      (attempt : Int) + ((f : Int) + 1) = cfg.MaxRetries + 1 →
      (retryLoop cfg nextDelay pd pt respond attempt (f + 1) delay lastErr waits).result
          = Except.error (ReqError.transportErr (errs (attempt + f))) ∧
      (retryLoop cfg nextDelay pd pt respond attempt (f + 1) delay lastErr waits).attemptsMade
          = attempt + f + 1 ∧
      (retryLoop cfg nextDelay pd pt respond attempt (f + 1) delay lastErr waits).waits.length
          = waits.length + f := by
  intro f
  induction f with
  | zero =>
    intro attempt delay lastErr waits h
    have hnlt : ¬ ((attempt : Int) < cfg.MaxRetries) := by omega
    rw [retryLoop_succ, hresp attempt]
    simp [hnlt]
  | succ f ih =>
    intro attempt delay lastErr waits h
    have hlt : (attempt : Int) < cfg.MaxRetries := by omega
    have hrec := ih (attempt + 1)
      (if nextDelay delay > cfg.MaxDelay then cfg.MaxDelay else nextDelay delay)
      (LastErr.transport (errs attempt)) (delay :: waits) (by push_cast; omega)
    rw [retryLoop_succ, hresp attempt]
    simp only [if_pos hlt]
    refine ⟨?_, ?_, ?_⟩
    · rw [show attempt + (f + 1) = attempt + 1 + f from by omega]
      exact hrec.1
    · rw [hrec.2.1]
      omega
    · rw [hrec.2.2]
      simp
      omega

/-- Fuel computation for the retry loop entry point. -/
theorem maxRetries_fuel (cfg : RetryConfig) (N : Nat)
    (h : cfg.MaxRetries = (N : Int)) : (cfg.MaxRetries + 1).toNat = N + 1 := by
  omega

/-- Transport failing every attempt makes doRequestWithRetry issue
exactly MaxRetries+1 attempts, sleep MaxRetries times, and return the
raw error of the final attempt. -/
theorem doRequestWithRetry_allFail (cfg : RetryConfig) (N : Nat)
    (hN : cfg.MaxRetries = (N : Int)) (nextDelay : Int → Int)
    (pd pt : String → Option Int) (errs : Nat → String)
    (respond : Nat → AttemptOutcome)
    (hresp : ∀ i, respond i = AttemptOutcome.transportError (errs i)) :
    (doRequestWithRetry cfg nextDelay pd pt respond).result
        = Except.error (ReqError.transportErr (errs N)) ∧
    (doRequestWithRetry cfg nextDelay pd pt respond).attemptsMade = N + 1 ∧
    (doRequestWithRetry cfg nextDelay pd pt respond).waits.length = N := by
  have hfuel := maxRetries_fuel cfg N hN
  have hmain := retryLoop_allFail cfg nextDelay pd pt errs respond hresp N 0
    cfg.InitialDelay LastErr.noErr [] (by omega)
  unfold doRequestWithRetry
  rw [hfuel]
  simpa using hmain

/-- Every exit of the retry loop reports the sleeps in chronological
order, so the first sleep performed is the head of the reported list. -/
theorem retryLoop_waits_head (cfg : RetryConfig) (nextDelay : Int → Int)
    (pd pt : String → Option Int) (respond : Nat → AttemptOutcome) :
    ∀ fuel attempt delay lastErr ws w0,
      (retryLoop cfg nextDelay pd pt respond attempt fuel delay lastErr
          (ws ++ [w0])).waits.head? = some w0 := by
  intro fuel
  induction fuel with
  | zero =>
    intro attempt delay lastErr ws w0
    simp [retryLoop]
  | succ fuel ih =>
    intro attempt delay lastErr ws w0
    simp only [retryLoop]
    cases hresp : respond attempt with
    | transportError e =>
      by_cases hlt : (attempt : Int) < cfg.MaxRetries
      · simpa [hlt] using ih (attempt + 1) _ _ (delay :: ws) w0
      · simp [hlt]
    | response status hdr body =>
      by_cases hcond : status = 429 ∧ cfg.Enabled = true ∧ (attempt : Int) < cfg.MaxRetries
      · simpa [hcond] using ih (attempt + 1) _ _
          (rateLimit429Wait cfg (parseRetryAfter pd pt) delay hdr :: ws) w0
      · simp [hcond]

/-! ## Claim C1: retry exhaustion -/

/-- Claim C1, amended. For every RetryConfig with MaxRetries = N (N >= 0) and
every request whose underlying HTTP execution fails with a
transport-level error on every attempt, doRequestWithRetry makes exactly
N+1 attempts, and the error it finally returns is the last underlying
failure itself — not wrapped with MaxRetriesExceeded, since the final
failing attempt returns its error directly and the wrap after the loop
is unreachable. -/
theorem C1_prop (N : Nat) (cfg : RetryConfig) (nextDelay : Int → Int)
    (pd pt : String → Option Int) (errs : Nat → String)
    (respond : Nat → AttemptOutcome)
    (hN : cfg.MaxRetries = (N : Int))
    (hresp : ∀ i, respond i = AttemptOutcome.transportError (errs i)) :
    (doRequestWithRetry cfg nextDelay pd pt respond).attemptsMade = N + 1 ∧
    (doRequestWithRetry cfg nextDelay pd pt respond).result
      = Except.error (ReqError.transportErr (errs N)) := by
  have h := doRequestWithRetry_allFail cfg N hN nextDelay pd pt errs respond hresp
  exact ⟨h.2.1, h.1⟩

/-- Claim C1, witness: with MaxRetries = 1 and a transport failing both
attempts, exactly 2 attempts are made and the raw last error returns. -/
theorem C1_witness :
    (doRequestWithRetry ⟨1, Second, 32 * Second, true⟩ (fun d => 2 * d)
        (fun _ => none) (fun _ => none)
        (fun _ => AttemptOutcome.transportError "boom")).attemptsMade = 2 ∧
    (doRequestWithRetry ⟨1, Second, 32 * Second, true⟩ (fun d => 2 * d)
        (fun _ => none) (fun _ => none)
        (fun _ => AttemptOutcome.transportError "boom")).result
      = Except.error (ReqError.transportErr "boom") :=
  C1_prop 1 ⟨1, Second, 32 * Second, true⟩ (fun d => 2 * d)
    (fun _ => none) (fun _ => none) (fun _ => "boom")
    (fun _ => AttemptOutcome.transportError "boom") (by norm_num) (fun _ => rfl)

/-- Claim C1, counterexample to the claim as stated: with MaxRetries = 1 and a
transport failing both attempts, the returned error is the raw transport
error, which is not the MaxRetriesExceeded wrap the claim promises. -/
theorem C1_counterexample :
    (doRequestWithRetry ⟨1, Second, 32 * Second, true⟩ (fun d => 2 * d)
        (fun _ => none) (fun _ => none)
        (fun _ => AttemptOutcome.transportError "boom")).result
      = Except.error (ReqError.transportErr "boom") ∧
    ReqError.transportErr "boom"
      ≠ ReqError.maxRetriesExceeded (LastErr.transport "boom") := by
  refine ⟨rfl, ?_⟩
  intro h
  cases h

/-! ## Claim C9: Enabled gates only the 429 branch -/

/-- Claim C9. Transport-level request errors are retried up to MaxRetries with
backoff sleeps even when RetryConfig.Enabled is false (first conjunct:
N+1 attempts and N sleeps for an always-failing transport), while with
Enabled = false any HTTP response — including a 429 — is returned
immediately from the first attempt with no sleep (second conjunct), so
the Enabled flag gates only the 429 retry branch. -/
theorem C9_prop (N : Nat) (cfg : RetryConfig) (nextDelay : Int → Int)
    (pd pt : String → Option Int) (errs : Nat → String)
    (respond : Nat → AttemptOutcome) (status : Int) (hdr body : String)
    (hEnabled : cfg.Enabled = false) (hN : cfg.MaxRetries = (N : Int)) :
    ((∀ i, respond i = AttemptOutcome.transportError (errs i)) →
      (doRequestWithRetry cfg nextDelay pd pt respond).attemptsMade = N + 1 ∧
      (doRequestWithRetry cfg nextDelay pd pt respond).waits.length = N ∧
      (doRequestWithRetry cfg nextDelay pd pt respond).result
        = Except.error (ReqError.transportErr (errs N))) ∧
    (respond 0 = AttemptOutcome.response status hdr body →
      (doRequestWithRetry cfg nextDelay pd pt respond).result
        = Except.ok ⟨status, hdr, body⟩ ∧
      (doRequestWithRetry cfg nextDelay pd pt respond).attemptsMade = 1 ∧
      (doRequestWithRetry cfg nextDelay pd pt respond).waits = []) := by
  constructor
  · intro hresp
    have h := doRequestWithRetry_allFail cfg N hN nextDelay pd pt errs respond hresp
    exact ⟨h.2.1, h.2.2, h.1⟩
  · intro h0
    unfold doRequestWithRetry
    rw [maxRetries_fuel cfg N hN, retryLoop_succ, h0]
    simp [hEnabled]

/-- Claim C9, witness: with Enabled = false and MaxRetries = 2, an
always-failing transport still gets 3 attempts and 2 sleeps, and a 429
first response is returned immediately after 1 attempt. -/
theorem C9_witness :
    ((doRequestWithRetry ⟨2, Second, 32 * Second, false⟩ (fun d => 2 * d)
        (fun _ => none) (fun _ => none)
        (fun _ => AttemptOutcome.transportError "down")).attemptsMade = 3 ∧
     (doRequestWithRetry ⟨2, Second, 32 * Second, false⟩ (fun d => 2 * d)
        (fun _ => none) (fun _ => none)
        (fun _ => AttemptOutcome.transportError "down")).waits.length = 2 ∧
     (doRequestWithRetry ⟨2, Second, 32 * Second, false⟩ (fun d => 2 * d)
        (fun _ => none) (fun _ => none)
        (fun _ => AttemptOutcome.transportError "down")).result
       = Except.error (ReqError.transportErr "down")) ∧
    ((doRequestWithRetry ⟨2, Second, 32 * Second, false⟩ (fun d => 2 * d)
        (fun _ => none) (fun _ => none)
        (fun _ => AttemptOutcome.response 429 "5" "b")).result
       = Except.ok ⟨429, "5", "b"⟩ ∧
     (doRequestWithRetry ⟨2, Second, 32 * Second, false⟩ (fun d => 2 * d)
        (fun _ => none) (fun _ => none)
        (fun _ => AttemptOutcome.response 429 "5" "b")).attemptsMade = 1 ∧
     (doRequestWithRetry ⟨2, Second, 32 * Second, false⟩ (fun d => 2 * d)
        (fun _ => none) (fun _ => none)
        (fun _ => AttemptOutcome.response 429 "5" "b")).waits = []) := by
  constructor
  · exact (C9_prop 2 ⟨2, Second, 32 * Second, false⟩ (fun d => 2 * d)
      (fun _ => none) (fun _ => none) (fun _ => "down")
      (fun _ => AttemptOutcome.transportError "down") 0 "" "" rfl (by norm_num)).1
      (fun _ => rfl)
  · exact (C9_prop 2 ⟨2, Second, 32 * Second, false⟩ (fun d => 2 * d)
      (fun _ => none) (fun _ => none) (fun _ => "")
      (fun _ => AttemptOutcome.response 429 "5" "b") 429 "5" "b" rfl (by norm_num)).2 rfl

/-! ## Claim C4: conversation log growth -/

/-- Claim C4. For every Conversation and every call to Conversation.Send: on
success the message log grows by exactly one message — the returned
assistant message, whatever it carries; on a client error or on zero
response choices (reported as NoResponseChoices) the message log is
unchanged. -/
theorem C4_prop (msgs : List Message)
    (r : Except String ChatCompletionResponse) :
    (∀ m, (conversationSend msgs r).1 = Except.ok m →
        (conversationSend msgs r).2 = msgs ++ [m]) ∧
    (∀ e, (conversationSend msgs r).1 = Except.error e →
        (conversationSend msgs r).2 = msgs) ∧
    (∀ resp, r = Except.ok resp → resp.Choices = [] →
        conversationSend msgs r = (Except.error SendErr.noResponseChoices, msgs)) := by
  refine ⟨?_, ?_, ?_⟩
  · intro m hm
    rcases r with e | resp
    · simp [conversationSend] at hm
    · rcases hres : resp.Choices with _ | ⟨c, rest⟩
      · simp [conversationSend, hres] at hm
      · simp only [conversationSend, hres] at hm ⊢
        simp only [Except.ok.injEq] at hm
        rw [hm]
  · intro e he
    rcases r with e2 | resp
    · simp [conversationSend]
    · rcases hres : resp.Choices with _ | ⟨c, rest⟩
      · simp [conversationSend, hres]
      · simp [conversationSend, hres] at he
  · intro resp hr hchoices
    subst hr
    simp [conversationSend, hchoices]

/-- Claim C4, witness: a successful send appends exactly the returned message,
a client error and a zero-choice response leave the log unchanged. -/
theorem C4_witness :
    (conversationSend [userMessage "hi"]
        (Except.ok ⟨[⟨{ Role := MessageRole.assistant,
                        Content := MessageContent.str "ok" }, ""⟩]⟩)).2
      = [userMessage "hi"] ++ [{ Role := MessageRole.assistant,
                                 Content := MessageContent.str "ok" }] ∧
    (conversationSend [userMessage "hi"] (Except.error "down")).2
      = [userMessage "hi"] ∧
    conversationSend [userMessage "hi"] (Except.ok ⟨[]⟩)
      = (Except.error SendErr.noResponseChoices, [userMessage "hi"]) := by
  refine ⟨?_, ?_, ?_⟩
  · exact (C4_prop [userMessage "hi"] _).1
      { Role := MessageRole.assistant, Content := MessageContent.str "ok" } rfl
  · exact (C4_prop [userMessage "hi"] _).2.1 (SendErr.clientErr "down") rfl
  · exact (C4_prop [userMessage "hi"] _).2.2 ⟨[]⟩ rfl rfl

/-! ## Claim C5: tool dispatch -/

/-- Folding the dispatch step with an event-collecting callback records
exactly one event per tool call, in order. -/
theorem foldl_collect_events (tools : List LlmTool) :
    ∀ (tcs : List ToolCall) (acc : List (Bool × String × String)),
      tcs.foldl (handleToolCall tools (fun s b i p => s ++ [(b, i, p)])) acc
        = acc ++ tcs.map (specToolCallEvent tools) := by
  intro tcs
  induction tcs with
  | nil => intro acc; simp
  | cons tc rest ih =>
    intro acc
    have hstep : handleToolCall tools (fun s b i p => s ++ [(b, i, p)]) acc tc
        = acc ++ [specToolCallEvent tools tc] := by
      unfold handleToolCall specToolCallEvent
      cases hfind : tools.find? (fun t => t.name == tc.Function.Name) with
      | none => simp
      | some t =>
        cases hcall : t.call tc.Function.Arguments with
        | ok r => simp [hcall]
        | error e => simp [hcall]
    simp only [List.foldl_cons, hstep, ih, List.map_cons]
    simp

/-- Claim C5. HandleResponseCalls returns an error exactly when no callback is
registered (first and third conjuncts); with a callback it processes
every tool call of the response in order and returns nil: observing the
dispatch with an event-collecting callback yields one callback event per
tool call — (false, id, result) on executor success, (true, id, error)
on executor failure, (true, id, not-found text) for an unmatched name —
so no executor failure or missing tool stops the remaining calls. -/
theorem C5_prop (tools : List LlmTool) (response : Message)
    (σ : Type) (cb : σ → Bool → String → String → σ) (s : σ) :
    handleResponseCalls (σ := List (Bool × String × String)) none tools [] response
      = Except.error "no callback set" ∧
    handleResponseCalls (some (fun s b i p => s ++ [(b, i, p)])) tools [] response
      = Except.ok (response.ToolCalls.map (specToolCallEvent tools)) ∧
    handleResponseCalls (some cb) tools s response
      = Except.ok (response.ToolCalls.foldl (handleToolCall tools cb) s) := by
  refine ⟨rfl, ?_, rfl⟩
  simpa [handleResponseCalls] using
    foldl_collect_events tools response.ToolCalls []

/-! ## Helper lemmas: fsMage loop -/

/-- Nonempty lists are not isEmpty. -/
theorem isEmpty_false_of_ne_nil {α : Type} {l : List α} (h : l ≠ []) :
    l.isEmpty = false := by
  cases l with
  | nil => exact absurd rfl h
  | cons a l => rfl

/-- Dispatch rounds are the callback fold (the kit has its callback
installed, so HandleResponseCalls never errors for the mage). -/
theorem fsDispatchRound_eq (tools : List LlmTool) (s : FsMageState) (m : Message) :
    fsDispatchRound tools s m
      = m.ToolCalls.foldl (handleToolCall tools fsToolCallback) s := rfl

/-- One dispatch step only ever appends to the result builder. -/
theorem handleToolCall_rb (tools : List LlmTool) (s : FsMageState) (tc : ToolCall) :
    ∃ u, (handleToolCall tools fsToolCallback s tc).resultBuilder
      = s.resultBuilder ++ u := by
  unfold handleToolCall
  cases hfind : tools.find? (fun t => t.name == tc.Function.Name) with
  | none => exact ⟨"", by simp [fsToolCallback, String.append_empty]⟩
  | some tool =>
    cases hcall : tool.call tc.Function.Arguments with
    | ok r =>
      refine ⟨r, ?_⟩
      simp [hcall, fsToolCallback]
    | error e =>
      refine ⟨"", ?_⟩
      simp [hcall, fsToolCallback, String.append_empty]

/-- Folding a batch of dispatch steps only ever appends to the result
builder. -/
theorem fsDispatch_foldl_rb (tools : List LlmTool) :
    ∀ (tcs : List ToolCall) (s : FsMageState),
      ∃ u, (tcs.foldl (handleToolCall tools fsToolCallback) s).resultBuilder
        = s.resultBuilder ++ u := by
  intro tcs
  induction tcs with
  | nil => intro s; exact ⟨"", (String.append_empty _).symm⟩
  | cons tc rest ih =>
    intro s
    obtain ⟨u, hu⟩ := handleToolCall_rb tools s tc
    obtain ⟨t, ht⟩ := ih (handleToolCall tools fsToolCallback s tc)
    refine ⟨u ++ t, ?_⟩
    rw [List.foldl_cons, ht, hu, String.append_assoc]

/-- Loop invariant of the embedded Execute: the result builder only
grows, and a successful return value is exactly the final builder
contents. -/
theorem fsExecuteLoop_rb (tools : List LlmTool) :
    ∀ (script : List (Except String ChatCompletionResponse))
      (s : FsMageState) (rounds : Nat),
      (∃ t, (fsExecuteLoop tools script s rounds).state.resultBuilder
          = s.resultBuilder ++ t) ∧
      (∀ v, (fsExecuteLoop tools script s rounds).value = Except.ok v →
          v = (fsExecuteLoop tools script s rounds).state.resultBuilder) := by
  intro script
  induction script with
  | nil =>
    intro s rounds
    refine ⟨⟨"", (String.append_empty _).symm⟩, ?_⟩
    intro v hv
    simp [fsExecuteLoop] at hv
  | cons r rest ih =>
    intro s rounds
    rcases hsend : conversationSend s.conversation r with ⟨res, msgs2⟩
    rcases res with e | m
    · constructor
      · exact ⟨"", by simp [fsExecuteLoop, hsend, String.append_empty]⟩
      · intro v hv
        simp [fsExecuteLoop, hsend] at hv
    · by_cases hempty : m.ToolCalls.isEmpty
      · cases hcontent : m.Content with
        | str str =>
          constructor
          · exact ⟨str, by simp [fsExecuteLoop, hsend, hempty, hcontent]⟩
          · intro v hv
            simp [fsExecuteLoop, hsend, hempty, hcontent] at hv ⊢
            simp [← hv]
        | items xs =>
          constructor
          · exact ⟨"", by simp [fsExecuteLoop, hsend, hempty, hcontent,
              String.append_empty]⟩
          · intro v hv
            simp [fsExecuteLoop, hsend, hempty, hcontent] at hv
      · have hloop : fsExecuteLoop tools (r :: rest) s rounds
            = fsExecuteLoop tools rest
                (fsDispatchRound tools { s with conversation := msgs2 } m)
                (rounds + 1) := by
          simp [fsExecuteLoop, hsend, hempty]
        obtain ⟨t, ht⟩ := (ih (fsDispatchRound tools { s with conversation := msgs2 } m)
          (rounds + 1)).1
        obtain ⟨u, hu⟩ := fsDispatch_foldl_rb tools m.ToolCalls
          { s with conversation := msgs2 }
        constructor
        · refine ⟨u ++ t, ?_⟩
          rw [hloop, ht, fsDispatchRound_eq, hu]
          simp [String.append_assoc]
        · intro v hv
          rw [hloop] at hv ⊢
          exact (ih _ _).2 v hv

/-- Prelude appends touch only the conversation. -/
theorem fsExecutePrelude_rb (pbs : List ProjectBounds) (s : FsMageState)
    (cmd : String) :
    (fsExecutePrelude pbs s cmd).resultBuilder = s.resultBuilder := by
  unfold fsExecutePrelude
  by_cases h : pbs.isEmpty <;> simp [h]

/-- Prelude appends also preserve context messages. -/
theorem fsExecutePrelude_ctx (pbs : List ProjectBounds) (s : FsMageState)
    (cmd : String) :
    (fsExecutePrelude pbs s cmd).contextMessages = s.contextMessages := by
  unfold fsExecutePrelude
  by_cases h : pbs.isEmpty <;> simp [h]

/-! ## Claim C10: result buffer cleared only by Reset -/

/-- Claim C10. The accumulated result buffer is cleared by Reset (first
conjunct) and never by Execute: a successful Execute returns exactly the
full buffer contents, which extend the buffer it started from (second
conjunct), so a second Execute on the same mage without an intervening
Reset returns a string that begins with the complete result of the
previous Execute (third conjunct). -/
theorem C10_prop (tools tools2 : List LlmTool)
    (pbs pbs2 : List ProjectBounds) (s : FsMageState) (cmd cmd2 : String)
    (script script2 : List (Except String ChatCompletionResponse))
    (v1 v2 : String) :
    (resetConversationInternals s).resultBuilder = "" ∧
    ((fsExecute tools pbs s cmd script).value = Except.ok v1 →
      v1 = (fsExecute tools pbs s cmd script).state.resultBuilder ∧
      growsFrom v1 s.resultBuilder) ∧
    ((fsExecute tools pbs s cmd script).value = Except.ok v1 →
      (fsExecute tools2 pbs2 (fsExecute tools pbs s cmd script).state
          cmd2 script2).value = Except.ok v2 →
      growsFrom v2 v1) := by
  refine ⟨rfl, ?_, ?_⟩
  · intro hv
    have h := fsExecuteLoop_rb tools script (fsExecutePrelude pbs s cmd) 0
    have hval : v1 = (fsExecuteLoop tools script
        (fsExecutePrelude pbs s cmd) 0).state.resultBuilder := h.2 v1 hv
    obtain ⟨t, ht⟩ := h.1
    refine ⟨hval, t, ?_⟩
    rw [hval, ht, fsExecutePrelude_rb]
  · intro hv1 hv2
    have h1 := fsExecuteLoop_rb tools script (fsExecutePrelude pbs s cmd) 0
    have hval1 : v1 = (fsExecuteLoop tools script
        (fsExecutePrelude pbs s cmd) 0).state.resultBuilder := h1.2 v1 hv1
    have h2 := fsExecuteLoop_rb tools2 script2
      (fsExecutePrelude pbs2
        (fsExecuteLoop tools script (fsExecutePrelude pbs s cmd) 0).state cmd2) 0
    have hval2 : v2 = (fsExecuteLoop tools2 script2
        (fsExecutePrelude pbs2
          (fsExecuteLoop tools script (fsExecutePrelude pbs s cmd) 0).state cmd2)
        0).state.resultBuilder := h2.2 v2 hv2
    obtain ⟨t, ht⟩ := h2.1
    refine ⟨t, ?_⟩
    rw [hval2, ht, fsExecutePrelude_rb, ← hval1]

/-- Claim C10, witness: a first Execute accumulating a tool result "A" and
final text "one" returns "Aone"; a second Execute on the same state with
final text "two" returns "Aonetwo", which begins with "Aone". -/
theorem C10_witness :
    (fsExecute [⟨"t", fun _ => Except.ok "A"⟩] [] ⟨[], "", []⟩ "go"
        [Except.ok ⟨[⟨{ Role := MessageRole.assistant,
                        Content := MessageContent.str "",
                        ToolCalls := [⟨"id1", "function", ⟨"t", "args"⟩⟩] }, ""⟩]⟩,
         Except.ok ⟨[⟨{ Role := MessageRole.assistant,
                        Content := MessageContent.str "one" }, ""⟩]⟩]).value
      = Except.ok "Aone" ∧
    (fsExecute [⟨"t", fun _ => Except.ok "A"⟩] []
        (fsExecute [⟨"t", fun _ => Except.ok "A"⟩] [] ⟨[], "", []⟩ "go"
          [Except.ok ⟨[⟨{ Role := MessageRole.assistant,
                          Content := MessageContent.str "",
                          ToolCalls := [⟨"id1", "function", ⟨"t", "args"⟩⟩] }, ""⟩]⟩,
           Except.ok ⟨[⟨{ Role := MessageRole.assistant,
                          Content := MessageContent.str "one" }, ""⟩]⟩]).state
        "more"
        [Except.ok ⟨[⟨{ Role := MessageRole.assistant,
                        Content := MessageContent.str "two" }, ""⟩]⟩]).value
      = Except.ok "Aonetwo" ∧
    growsFrom "Aonetwo" "Aone" := by
  refine ⟨rfl, rfl, ?_⟩
  exact (C10_prop [⟨"t", fun _ => Except.ok "A"⟩] [⟨"t", fun _ => Except.ok "A"⟩]
    [] [] ⟨[], "", []⟩ "go" "more"
    [Except.ok ⟨[⟨{ Role := MessageRole.assistant,
                    Content := MessageContent.str "",
                    ToolCalls := [⟨"id1", "function", ⟨"t", "args"⟩⟩] }, ""⟩]⟩,
     Except.ok ⟨[⟨{ Role := MessageRole.assistant,
                    Content := MessageContent.str "one" }, ""⟩]⟩]
    [Except.ok ⟨[⟨{ Role := MessageRole.assistant,
                    Content := MessageContent.str "two" }, ""⟩]⟩]
    "Aone" "Aonetwo").2.2 rfl rfl

/-! ## Claim C3: orchestration termination -/

/-- Loop step for a scripted response carrying tool calls: one dispatch
round and back to sending. -/
theorem fsExecuteLoop_toolStep (tools : List LlmTool)
    (rest : List (Except String ChatCompletionResponse)) (st : FsMageState)
    (rounds : Nat) (m : Message) (fr : String) (hm : m.ToolCalls ≠ []) :
    fsExecuteLoop tools (Except.ok ⟨[⟨m, fr⟩]⟩ :: rest) st rounds
      = fsExecuteLoop tools rest
          (fsDispatchRound tools { st with conversation := st.conversation ++ [m] } m)
          (rounds + 1) := by
  simp [fsExecuteLoop, conversationSend, isEmpty_false_of_ne_nil hm]

/-- Loop step for a scripted plain-text response: append the text to the
result builder and return the whole builder. -/
theorem fsExecuteLoop_textStep (tools : List LlmTool)
    (rest : List (Except String ChatCompletionResponse)) (st : FsMageState)
    (rounds : Nat) (s3 fr : String) :
    fsExecuteLoop tools
        (Except.ok ⟨[⟨{ Role := MessageRole.assistant,
                        Content := MessageContent.str s3 }, fr⟩]⟩ :: rest) st rounds
      = ⟨Except.ok (st.resultBuilder ++ s3),
         { st with
           conversation := st.conversation ++
             [{ Role := MessageRole.assistant, Content := MessageContent.str s3 }],
           resultBuilder := st.resultBuilder ++ s3 }, rounds⟩ := by
  simp [fsExecuteLoop, conversationSend]

/-- Claim C3, amended. For every fsMage Execute invocation in which the
scripted Send outcomes are [assistant message with tool calls, assistant
message with tool calls, assistant message with plain string content],
the loop performs exactly two tool-dispatch rounds and returns without
error the accumulated result buffer: the buffer Execute started from,
extended by the successful tool-result strings of the two rounds, ending
with the plain-text content of the third response — equal to that plain
text exactly when the prior parts are empty. -/
theorem C3_prop (tools : List LlmTool) (pbs : List ProjectBounds)
    (s : FsMageState) (cmd : String) (m1 m2 : Message)
    (fr1 fr2 fr3 : String) (s3 : String)
    (h1 : m1.ToolCalls ≠ []) (h2 : m2.ToolCalls ≠ []) :
    (fsExecute tools pbs s cmd
        [Except.ok ⟨[⟨m1, fr1⟩]⟩, Except.ok ⟨[⟨m2, fr2⟩]⟩,
         Except.ok ⟨[⟨{ Role := MessageRole.assistant,
                        Content := MessageContent.str s3 }, fr3⟩]⟩]).dispatchRounds = 2 ∧
    returnsWithSuffix
      (fsExecute tools pbs s cmd
        [Except.ok ⟨[⟨m1, fr1⟩]⟩, Except.ok ⟨[⟨m2, fr2⟩]⟩,
         Except.ok ⟨[⟨{ Role := MessageRole.assistant,
                        Content := MessageContent.str s3 }, fr3⟩]⟩])
      s.resultBuilder s3 := by
  have hrun : fsExecute tools pbs s cmd
      [Except.ok ⟨[⟨m1, fr1⟩]⟩, Except.ok ⟨[⟨m2, fr2⟩]⟩,
       Except.ok ⟨[⟨{ Role := MessageRole.assistant,
                      Content := MessageContent.str s3 }, fr3⟩]⟩]
      = fsExecuteLoop tools
          [Except.ok ⟨[⟨m1, fr1⟩]⟩, Except.ok ⟨[⟨m2, fr2⟩]⟩,
           Except.ok ⟨[⟨{ Role := MessageRole.assistant,
                          Content := MessageContent.str s3 }, fr3⟩]⟩]
          (fsExecutePrelude pbs s cmd) 0 := rfl
  rw [hrun, fsExecuteLoop_toolStep tools _ _ _ _ _ h1,
    fsExecuteLoop_toolStep tools _ _ _ _ _ h2, fsExecuteLoop_textStep]
  refine ⟨rfl, ?_⟩
  obtain ⟨u1, hu1⟩ := fsDispatch_foldl_rb tools m1.ToolCalls
    { fsExecutePrelude pbs s cmd with
      conversation := (fsExecutePrelude pbs s cmd).conversation ++ [m1] }
  obtain ⟨u2, hu2⟩ := fsDispatch_foldl_rb tools m2.ToolCalls
    { fsDispatchRound tools
        { fsExecutePrelude pbs s cmd with
          conversation := (fsExecutePrelude pbs s cmd).conversation ++ [m1] } m1 with
      conversation := (fsDispatchRound tools
        { fsExecutePrelude pbs s cmd with
          conversation := (fsExecutePrelude pbs s cmd).conversation ++ [m1] } m1).conversation
        ++ [m2] }
  refine ⟨u1 ++ u2, ?_⟩
  simp only [fsDispatchRound_eq] at hu1 hu2 ⊢
  simp only [hu2]
  simp only [hu1]
  have hpre := fsExecutePrelude_rb pbs s cmd
  simp [hpre, String.append_assoc]

/-- Claim C3, witness: with an empty registry (both dispatch rounds add
nothing to the buffer) and a fresh mage, the scripted sequence
[tool-call, tool-call, "done"] gives exactly two dispatch rounds and the
final value accumulates to "done". -/
theorem C3_witness :
    (fsExecute [] [] ⟨[], "", []⟩ "go"
        [Except.ok ⟨[⟨{ Role := MessageRole.assistant,
                        Content := MessageContent.str "",
                        ToolCalls := [⟨"id1", "function", ⟨"t", "args"⟩⟩] }, ""⟩]⟩,
         Except.ok ⟨[⟨{ Role := MessageRole.assistant,
                        Content := MessageContent.str "",
                        ToolCalls := [⟨"id1", "function", ⟨"t", "args"⟩⟩] }, ""⟩]⟩,
         Except.ok ⟨[⟨{ Role := MessageRole.assistant,
                        Content := MessageContent.str "done" }, ""⟩]⟩]).dispatchRounds = 2 ∧
    returnsWithSuffix
      (fsExecute [] [] ⟨[], "", []⟩ "go"
        [Except.ok ⟨[⟨{ Role := MessageRole.assistant,
                        Content := MessageContent.str "",
                        ToolCalls := [⟨"id1", "function", ⟨"t", "args"⟩⟩] }, ""⟩]⟩,
         Except.ok ⟨[⟨{ Role := MessageRole.assistant,
                        Content := MessageContent.str "",
                        ToolCalls := [⟨"id1", "function", ⟨"t", "args"⟩⟩] }, ""⟩]⟩,
         Except.ok ⟨[⟨{ Role := MessageRole.assistant,
                        Content := MessageContent.str "done" }, ""⟩]⟩])
      "" "done" :=
  C3_prop [] [] ⟨[], "", []⟩ "go"
    { Role := MessageRole.assistant, Content := MessageContent.str "",
      ToolCalls := [⟨"id1", "function", ⟨"t", "args"⟩⟩] }
    { Role := MessageRole.assistant, Content := MessageContent.str "",
      ToolCalls := [⟨"id1", "function", ⟨"t", "args"⟩⟩] }
    "" "" "" "done" (by simp) (by simp)

/-- Claim C3, counterexample to the claim as stated: with a registered tool
whose executor returns "A", the same scripted sequence returns "AAdone"
— the accumulated buffer — rather than the plain-text content "done" of
the third response. -/
theorem C3_counterexample :
    (fsExecute [⟨"t", fun _ => Except.ok "A"⟩] [] ⟨[], "", []⟩ "go"
        [Except.ok ⟨[⟨{ Role := MessageRole.assistant,
                        Content := MessageContent.str "",
                        ToolCalls := [⟨"id1", "function", ⟨"t", "args"⟩⟩] }, ""⟩]⟩,
         Except.ok ⟨[⟨{ Role := MessageRole.assistant,
                        Content := MessageContent.str "",
                        ToolCalls := [⟨"id2", "function", ⟨"t", "args"⟩⟩] }, ""⟩]⟩,
         Except.ok ⟨[⟨{ Role := MessageRole.assistant,
                        Content := MessageContent.str "done" }, ""⟩]⟩]).value
      = Except.ok "AAdone" ∧
    ("AAdone" : String) ≠ "done" := by
  exact ⟨rfl, by decide⟩

/-! ## Claim C8: path validator -/

/-- Consequences of a leading slash for the other prefix guards of the
validator. -/
theorem goHasPrefix_slash_facts (p : String) (h : goHasPrefix p "/" = true) :
    goHasPrefix p "./" = false ∧ goHasPrefix p "../" = false ∧
    goHasPrefix p "~/" = false ∧ p ≠ "" ∧ p ≠ "." := by
  unfold goHasPrefix at h ⊢
  cases hd : p.data with
  | nil => rw [hd] at h; simp [List.isPrefixOf] at h
  | cons c rest =>
    rw [hd] at h
    rw [show ("/" : String).data = ['/'] from rfl] at h
    simp only [List.isPrefixOf, Bool.and_eq_true, beq_iff_eq] at h
    obtain ⟨hc, _⟩ := h
    subst hc
    refine ⟨?_, ?_, ?_, ?_, ?_⟩
    · rw [show ("./" : String).data = ['.', '/'] from rfl]
      simp [List.isPrefixOf]
    · rw [show ("../" : String).data = ['.', '.', '/'] from rfl]
      simp [List.isPrefixOf]
    · rw [show ("~/" : String).data = ['~', '/'] from rfl]
      simp [List.isPrefixOf]
    · intro he
      rw [he] at hd
      rw [show ("" : String).data = ([] : List Char) from rfl] at hd
      exact List.noConfusion hd
    · intro he
      rw [he] at hd
      rw [show ("." : String).data = ['.'] from rfl] at hd
      simp at hd

/-- Success of the per-project loop implies the candidate was accepted
by the prefix test against some listed root. -/
theorem checkProjects_ok (fs : FSOracle) (absPath : String) :
    ∀ (ps : List ProjectBounds) (v : String),
      checkProjects fs absPath ps = Except.ok v →
      v = absPath ∧ ∃ p ∈ ps, insideResolvedRoot fs absPath p := by
  intro ps
  induction ps with
  | nil => intro v hv; simp [checkProjects] at hv
  | cons p rest ih =>
    intro v hv
    simp only [checkProjects] at hv
    cases habs : fs.abs p.ABSPath with
    | none =>
      simp only [habs] at hv
      obtain ⟨hva, q, hq, hin⟩ := ih v hv
      exact ⟨hva, q, List.mem_cons_of_mem _ hq, hin⟩
    | some projAbs =>
      simp only [habs] at hv
      cases heval : fs.evalSymlinks projAbs with
      | none => simp only [heval] at hv; exact absurd hv (by simp)
      | some rp =>
        simp only [heval] at hv
        by_cases hcond : (goHasPrefix (resolveCandidate fs absPath)
            (if goHasSuffix rp "/" then rp else rp ++ "/") = true ∨
          resolveCandidate fs absPath
            = trimSlashSuffix (if goHasSuffix rp "/" then rp else rp ++ "/"))
        · rw [if_pos hcond] at hv
          simp only [Except.ok.injEq] at hv
          exact ⟨hv.symm, p, List.mem_cons_self p rest,
            projAbs, rp, habs, heval, hcond⟩
        · rw [if_neg hcond] at hv
          obtain ⟨hva, q, hq, hin⟩ := ih v hv
          exact ⟨hva, q, List.mem_cons_of_mem _ hq, hin⟩

/-- Claim C8, amended. ValidatePath rejects every relative path other than "."
and the empty string (both resolved as the current directory), which
includes "./", "../" and tilde paths (first conjunct); with an empty
allowed-root set it accepts any absolute path, returning its
filepath.Abs form (second conjunct), and also accepts "" and "."
(third conjunct); with a nonempty allowed-root set it returns a
validated absolute path only when the symlink-resolved candidate lies
under (or equals) some resolved allowed root (fourth conjunct). -/
theorem C8_prop :
    (∀ (fs : FSOracle) (projects : List ProjectBounds) (p : String),
        p ≠ "" → goHasPrefix p "/" = false → p ≠ "." →
        isOkE (ValidatePath fs projects p) = false) ∧
    (∀ (fs : FSOracle) (p a : String), goHasPrefix p "/" = true →
        fs.abs p = some a → ValidatePath fs [] p = Except.ok a) ∧
    (∀ (fs : FSOracle) (a : String), fs.abs "." = some a →
        ValidatePath fs [] "" = Except.ok a ∧
        ValidatePath fs [] "." = Except.ok a) ∧
    (∀ (fs : FSOracle) (projects : List ProjectBounds) (path v : String),
        projects ≠ [] → ValidatePath fs projects path = Except.ok v →
        fs.abs (if path = "" then "." else path) = some v ∧
        ∃ p ∈ projects, insideResolvedRoot fs v p) := by
  refine ⟨?_, ?_, ?_, ?_⟩
  · intro fs projects p hne hp hdot
    have hpath : (if p = "" then "." else p) = p := if_neg hne
    simp only [ValidatePath, hpath]
    split
    · simp [isOkE]
    · split
      · simp [isOkE]
      · split
        · simp [isOkE]
        · rename_i hcond3
          exact absurd (by simp [hp, hdot]) hcond3
  · intro fs p a hpre habs
    obtain ⟨h1, h2, h3, hne, hdot⟩ := goHasPrefix_slash_facts p hpre
    have hpath : (if p = "" then "." else p) = p := if_neg hne
    simp [ValidatePath, hpath, h1, h2, h3, hpre, habs]
  · intro fs a habs
    have g1 : goHasPrefix "." "./" = false := rfl
    have g2 : goHasPrefix "." "../" = false := rfl
    have g3 : goHasPrefix "." "~/" = false := rfl
    have g4 : goHasPrefix "." "/" = false := rfl
    constructor
    · simp [ValidatePath, habs, g1, g2, g3, g4]
    · simp [ValidatePath, habs, g1, g2, g3, g4]
  · intro fs projects path v hne hv
    simp only [ValidatePath] at hv
    generalize hpp : (if path = "" then "." else path) = path2 at hv ⊢
    split at hv
    · simp at hv
    · split at hv
      · simp at hv
      · split at hv
        · simp at hv
        · cases habs : fs.abs path2 with
          | none => simp only [habs] at hv; exact absurd hv (by simp)
          | some absPath =>
            simp only [habs] at hv
            rw [if_neg (by simpa using hne)] at hv
            obtain ⟨hva, q, hq, hin⟩ := checkProjects_ok fs absPath projects v hv
            subst hva
            exact ⟨rfl, q, hq, hin⟩

/-- Claim C8, witness: the rejection conjunct applied to the relative path
"sub/file.txt" and the acceptance conjuncts applied to an identity
absolute-path oracle. -/
theorem C8_witness :
    isOkE (ValidatePath ⟨fun s => some s, fun _ => none, fun _ => false,
        fun _ => "/", fun _ => "", fun a _ => a, fun _ b => b⟩ []
        "sub/file.txt") = false ∧
    ValidatePath ⟨fun s => some s, fun _ => none, fun _ => false,
        fun _ => "/", fun _ => "", fun a _ => a, fun _ b => b⟩ []
        "/workspace/file.txt" = Except.ok "/workspace/file.txt" := by
  constructor
  · exact (C8_prop.1 ⟨fun s => some s, fun _ => none, fun _ => false,
      fun _ => "/", fun _ => "", fun a _ => a, fun _ b => b⟩ []
      "sub/file.txt" (by decide) (by decide) (by decide))
  · exact (C8_prop.2.1 ⟨fun s => some s, fun _ => none, fun _ => false,
      fun _ => "/", fun _ => "", fun a _ => a, fun _ b => b⟩
      "/workspace/file.txt" "/workspace/file.txt" (by decide) rfl)

/-- Claim C8, counterexample to the claim as stated: with an empty allowed-root
set, the absolute path "/etc/passwd" — inside no allowed root, since
there are none — is accepted and returned unchanged, not rejected. -/
theorem C8_counterexample :
    ValidatePath ⟨fun s => some s, fun _ => none, fun _ => false,
        fun _ => "/", fun _ => "", fun a _ => a, fun _ b => b⟩ []
        "/etc/passwd" = Except.ok "/etc/passwd" := by
  rfl

/-! ## Claim C7: rate-limit wait computation -/

/-- Claim C7, amended. Whenever doRequestWithRetry receives an HTTP 429 with
retry enabled and attempts remaining, the wait before the next attempt
is rateLimit429Wait of the current delay and the Retry-After header;
when the header is present this equals min(MaxDelay, max(delay, hint))
with the hint parsed first as seconds, then as an HTTP date, then the
fixed default rate-limit duration if unparseable; when the header is
absent the wait is min(MaxDelay, delay) — the current backoff delay
capped — not the default rate-limit duration. -/
theorem C7_prop (cfg : RetryConfig) (nextDelay : Int → Int)
    (pd pt : String → Option Int) (respond : Nat → AttemptOutcome)
    (hdr body : String)
    (hEnabled : cfg.Enabled = true) (hMR : 0 < cfg.MaxRetries)
    (h0 : respond 0 = AttemptOutcome.response 429 hdr body) :
    (doRequestWithRetry cfg nextDelay pd pt respond).waits.head? =
        some (rateLimit429Wait cfg (parseRetryAfter pd pt) cfg.InitialDelay hdr) ∧
    (hdr ≠ "" → rateLimit429Wait cfg (parseRetryAfter pd pt) cfg.InitialDelay hdr =
        min cfg.MaxDelay (max cfg.InitialDelay (parseRetryAfter pd pt hdr))) ∧
    (hdr = "" → rateLimit429Wait cfg (parseRetryAfter pd pt) cfg.InitialDelay hdr =
        min cfg.MaxDelay cfg.InitialDelay) ∧
    (∀ d, pd (hdr ++ "s") = some d → parseRetryAfter pd pt hdr = d) ∧
    (∀ u, pd (hdr ++ "s") = none → pt hdr = some u → parseRetryAfter pd pt hdr = u) ∧
    (pd (hdr ++ "s") = none → pt hdr = none →
        parseRetryAfter pd pt hdr = DefaultRateLimitDuration) := by
  refine ⟨?_, ?_, ?_, ?_, ?_, ?_⟩
  · unfold doRequestWithRetry
    obtain ⟨k, hk⟩ : ∃ k, (cfg.MaxRetries + 1).toNat = k + 1 :=
      ⟨cfg.MaxRetries.toNat, by omega⟩
    rw [hk, retryLoop_succ, h0]
    have hlt : ((0 : Nat) : Int) < cfg.MaxRetries := by exact_mod_cast hMR
    simp only [hEnabled, hlt, and_true, and_self, if_true, true_and]
    simpa using retryLoop_waits_head cfg nextDelay pd pt respond k 1
      (nextDelay (rateLimit429Wait cfg (parseRetryAfter pd pt) cfg.InitialDelay hdr))
      (LastErr.rateLimit 429 (rateLimit429Wait cfg (parseRetryAfter pd pt) cfg.InitialDelay hdr) body)
      [] (rateLimit429Wait cfg (parseRetryAfter pd pt) cfg.InitialDelay hdr)
  · intro hne
    simp only [rateLimit429Wait, if_neg hne]
    rw [min_def, max_def]
    split_ifs <;> omega
  · intro heq
    simp only [rateLimit429Wait, heq, if_pos rfl]
    rw [min_def]
    split_ifs <;> omega
  · intro d hd
    unfold parseRetryAfter
    rw [hd]
  · intro u hd hu
    unfold parseRetryAfter
    rw [hd, hu]
  · intro hd hu
    unfold parseRetryAfter
    rw [hd, hu]

/-- Claim C7, witness: a 429 with Retry-After "5" (parsing as 5 seconds) and a
backoff delay of 1 second waits exactly min(32s, max(1s, 5s)) = 5s. -/
theorem C7_witness :
    (doRequestWithRetry ⟨3, Second, 32 * Second, true⟩ (fun d => 2 * d)
        (fun s => if s = "5s" then some (5 * Second) else none) (fun _ => none)
        (fun _ => AttemptOutcome.response 429 "5" "b")).waits.head?
      = some (rateLimit429Wait ⟨3, Second, 32 * Second, true⟩
          (parseRetryAfter (fun s => if s = "5s" then some (5 * Second) else none)
            (fun _ => none)) Second "5") ∧
    rateLimit429Wait ⟨3, Second, 32 * Second, true⟩
        (parseRetryAfter (fun s => if s = "5s" then some (5 * Second) else none)
          (fun _ => none)) Second "5"
      = min (32 * Second) (max Second
          (parseRetryAfter (fun s => if s = "5s" then some (5 * Second) else none)
            (fun _ => none) "5")) ∧
    parseRetryAfter (fun s => if s = "5s" then some (5 * Second) else none)
        (fun _ => none) "5" = 5 * Second := by
  refine ⟨?_, ?_, ?_⟩
  · exact (C7_prop ⟨3, Second, 32 * Second, true⟩ (fun d => 2 * d)
      (fun s => if s = "5s" then some (5 * Second) else none) (fun _ => none)
      (fun _ => AttemptOutcome.response 429 "5" "b") "5" "b" rfl (by norm_num) rfl).1
  · exact (C7_prop ⟨3, Second, 32 * Second, true⟩ (fun d => 2 * d)
      (fun s => if s = "5s" then some (5 * Second) else none) (fun _ => none)
      (fun _ => AttemptOutcome.response 429 "5" "b") "5" "b" rfl (by norm_num) rfl).2.1
      (by decide)
  · exact (C7_prop ⟨3, Second, 32 * Second, true⟩ (fun d => 2 * d)
      (fun s => if s = "5s" then some (5 * Second) else none) (fun _ => none)
      (fun _ => AttemptOutcome.response 429 "5" "b") "5" "b" rfl (by norm_num) rfl).2.2.2.1
      (5 * Second) rfl

/-! ## Claim C2: single close of the streaming sink -/

/-- Updating the last tool call of a list ending in a known element. -/
theorem updateLastToolCall_append (tc last : ToolCall) :
    ∀ prev, updateLastToolCall tc (prev ++ [last]) =
      prev ++ [applyToolCallFragment tc last] := by
  intro prev
  induction prev with
  | nil => simp [updateLastToolCall]
  | cons x rest ih => simp [updateLastToolCall, ih]

/-- Line loop of the streaming path: the close count is 1 on every exit
except the exit where the scanned lines are exhausted without a [DONE]
sentinel and without a scanner error, where it is 0. -/
theorem runStreamLines_closes (parse : String → Option (List DeltaChoice))
    (cancelled : Nat → Bool) (scanErr : Option String) :
    ∀ (lines : List String) (idx : Nat) (fullMessage : String)
      (toolCalls : List ToolCall) (chunks : List StreamChunk),
      chunks.any (·.Done) = false →
      (runStreamLines parse cancelled scanErr lines idx fullMessage toolCalls chunks).closes
        = if silentEOF (runStreamLines parse cancelled scanErr lines idx
            fullMessage toolCalls chunks) then 0 else 1 := by
  intro lines
  induction lines with
  | nil =>
    intro idx fullMessage toolCalls chunks hch
    cases scanErr with
    | none => simp [runStreamLines, silentEOF, isOkE, hch]
    | some e => simp [runStreamLines, silentEOF, isOkE]
  | cons line rest ih =>
    intro idx fullMessage toolCalls chunks hch
    simp only [runStreamLines]
    split
    · simp [silentEOF, isOkE]
    · split
      · exact ih _ _ _ _ hch
      · split
        · simp [silentEOF, isOkE]
        · split
          · exact ih _ _ _ _ hch
          · exact ih _ _ _ _ hch
          · apply ih
            split
            · simp [List.any_append, hch]
            · exact hch

/-- Claim C2, amended. The streaming sink channel is closed exactly once by
the producer on the request-failure, non-200, [DONE], scanner-error and
cancellation exit paths, but zero times on the success path where the
body ends without a [DONE] sentinel (silent EOF): the close count is 1
exactly when the run is not a silent EOF. -/
theorem C2_prop (parse : String → Option (List DeltaChoice))
    (cancelled : Nat → Bool) (req : Except ReqError StreamHTTPResponse) :
    (handleStreamingResponse parse cancelled req).closes
      = if silentEOF (handleStreamingResponse parse cancelled req) then 0 else 1 := by
  cases req with
  | error e => simp [handleStreamingResponse, silentEOF, isOkE]
  | ok resp =>
    by_cases hst : resp.StatusCode ≠ 200
    · simp [handleStreamingResponse, hst, silentEOF, isOkE]
    · simp only [handleStreamingResponse, hst, if_neg, ite_false]
      have := runStreamLines_closes parse cancelled resp.scanErr resp.bodyLines 0 "" [] []
        (by simp)
      simpa [hst] using this

/-- Claim C2, counterexample to the claim as stated: a successful streaming
request whose body ends without a [DONE] sentinel returns the
synthesized response without closing the sink channel at all, so the
channel is not closed exactly once on that exit path. -/
theorem C2_counterexample :
    (handleStreamingResponse (fun _ => none) (fun _ => false)
        (Except.ok ⟨200, ["data: hello"], none, ""⟩)).closes ≠ 1 := by
  decide

/-! ## Claim C6: streaming tool-call reassembly -/

/-- Claim C6. In streaming reassembly a delta fragment with a nonempty
tool-call id starts a new accumulated tool call; a fragment with an
empty id updates the most recently started call, overwriting the name
when the fragment carries one and string-concatenating the argument
fragment; and the concrete delta sequence of the claim — id "tc1", name
"search", arguments prefix, then an id-less continuation with the
argument suffix — reassembles through handleStreamingResponse into one
tool call named "search" with the complete JSON arguments. -/
theorem C6_prop :
    (∀ (acc : List ToolCall) (tc : ToolCall), tc.ID ≠ "" →
        mergeDeltaToolCall acc tc = acc ++ [tc]) ∧
    (∀ (prev : List ToolCall) (last tc : ToolCall), tc.ID = "" →
        mergeDeltaToolCall (prev ++ [last]) tc =
          prev ++ [applyToolCallFragment tc last]) ∧
    ((handleStreamingResponse
        (fun s =>
          if s = "L1" then
            some [⟨"", [⟨"tc1", "function", ⟨"search", "\x7b\"q\":"⟩⟩]⟩]
          else if s = "L2" then
            some [⟨"", [⟨"", "", ⟨"", "\"cats\"\x7d"⟩⟩]⟩]
          else none)
        (fun _ => false)
        (Except.ok ⟨200, ["data: L1", "data: L2", "data: [DONE]"], none, ""⟩)).result
      = Except.ok (synthesizeResponse ""
          [⟨"tc1", "function", ⟨"search", "\x7b\"q\":\"cats\"\x7d"⟩⟩])) := by
  refine ⟨?_, ?_, ?_⟩
  · intro acc tc h
    simp [mergeDeltaToolCall, h]
  · intro prev last tc h
    simp [mergeDeltaToolCall, h, updateLastToolCall_append]
  · rfl

/-- Claim C6, witness: the two general conjuncts evaluated at concrete
fragments — a fresh id appends a new call, and an id-less continuation
keeps the name and extends the arguments of the last call. -/
theorem C6_witness :
    mergeDeltaToolCall [] ⟨"tc1", "function", ⟨"search", "ab"⟩⟩
      = [⟨"tc1", "function", ⟨"search", "ab"⟩⟩] ∧
    mergeDeltaToolCall [⟨"tc1", "function", ⟨"search", "ab"⟩⟩] ⟨"", "", ⟨"", "cd"⟩⟩
      = [⟨"tc1", "function", ⟨"search", "abcd"⟩⟩] := by
  constructor
  · exact C6_prop.1 [] ⟨"tc1", "function", ⟨"search", "ab"⟩⟩ (by decide)
  · have h := C6_prop.2.1 [] ⟨"tc1", "function", ⟨"search", "ab"⟩⟩
      ⟨"", "", ⟨"", "cd"⟩⟩ rfl
    simpa [applyToolCallFragment] using h

/-- Claim C7, counterexample to the claim as stated: a 429 with no Retry-After
header, backoff delay 1s, MaxDelay 32s sleeps exactly 1 second — but the
formula of the claim, with the hint falling back to the default rate-limit
duration when the header is absent, would demand a 30-second wait. -/
theorem C7_counterexample :
    (doRequestWithRetry ⟨1, Second, 32 * Second, true⟩ (fun d => 2 * d)
        (fun _ => none) (fun _ => none)
        (fun i => if i = 0 then AttemptOutcome.response 429 "" "b"
                  else AttemptOutcome.response 200 "" "ok")).waits = [Second] ∧
    Second ≠ min (32 * Second) (max Second DefaultRateLimitDuration) := by
  refine ⟨rfl, ?_⟩
  norm_num [Second, DefaultRateLimitDuration]

end Beau
